import Mathlib

/-!
# Verification of the brick-UV mapper (`brickuv.py`)

Shallow embedding of the brick-UV operator: an island discovery pass over a
quad mesh's loop structure (`FaceGrid.add_item`), cell grouping with border
flags (`Island.__init__`), the texture-span policy (`Island.get_texture_span`),
the UV formula (`Island.get_uv`), and the driver (`main`).

Conventions:
* Python ints are `Int`; Python floats that only ever hold exact values
  (UV arithmetic) are `ℚ`.  Python `//` and `%` on a positive divisor agree
  with `Int.ediv`/`Int.emod`, which is what Lean's `/`/`%` on `Int` mean.
* The mesh is an index-based arena: loops and faces are `Nat` indices; the
  bmesh accessors `link_loop_next`, `link_loop_prev`, `link_loop_radial_next`,
  `loop.face`, `face.select`, `face.loops[i]` and `loop.vert.co` become the
  fields of `Mesh`.  A boundary edge's radial loop is the loop itself, as in
  bmesh.
* The recursive traversal takes explicit fuel (one unit per micro-step);
  every theorem about a completed traversal is conditioned on the run
  returning a value, and witnesses evaluate concrete runs.
* A raised `RuntimeError` is `Except.error ()`; running out of fuel is `none`.
-/

/-- Per-invocation configuration, from `Params.__init__` (brickuv.py lines 7-18).
`texture_size` and `cell_size` come from integer operator properties. -/
structure Params where
  texture_size : Int × Int
  cell_size : Int × Int
  rotate : Bool
  offset : Bool
  double_halves : Bool
  coplanar : Bool
  random : Bool
  subdiv : Bool
deriving DecidableEq, Repr

/-- Derived subdivisions: `self.subdivs = cell_size if subdiv else Vector((1, 1))` (line 18). -/
def Params.subdivs (p : Params) : Int × Int :=
  if p.subdiv then p.cell_size else (1, 1)

/-- UV formula `Island.get_uv` (lines 120-123).  `0.5` is the exact rational `1/2`. -/
def get_uv (p : Params) (cell_x cell_y cell_width : Int) (face_x face_y : ℚ) :
    ℚ × ℚ :=
  let u : ℚ := (1/2 + ((cell_x : ℚ) + (cell_width : ℚ) * face_x / (p.subdivs.1 : ℚ))
      * (p.cell_size.1 : ℚ)) / (p.texture_size.1 : ℚ)
  let v : ℚ := (1/2 + ((cell_y : ℚ) + face_y / (p.subdivs.2 : ℚ))
      * (p.cell_size.2 : ℚ)) / (p.texture_size.2 : ℚ)
  (u, 1 - v)

/-- Texture-span policy `Island.get_texture_span` (lines 125-135).  Python's `_params.offset`
(a `bool`) is used as the integer 0/1 inside the phase computation; `x -= 1 if
phase else 0` and `width += 1` happen only inside the widening branch; the
running-bond shift `x += 1 if offset else 0` is applied unconditionally at the
end.  Returns `(x, y, width)`. -/
def get_texture_span (p : Params) (x y : Int) (is_start_x is_end_x : Bool) :
    Int × Int × Int :=
  let off : Int := if p.offset then 1 else 0
  let widened : Int × Int :=
    if p.double_halves then
      let phase : Bool := (x + y + off) % 2 == 1
      if (is_start_x && is_end_x) || (is_start_x && phase) || (is_end_x && !phase) then
        (x - (if phase then 1 else 0), 2)
      else
        (x, 1)
    else
      (x, 1)
  (widened.1 + off, y, widened.2)

/-- The host mesh, as the external collaborator the script walks.  Loops and
faces are arena indices; `loops` bounds the loop indices in use.  `next`,
`prev` and `radial` are bmesh's `link_loop_next` / `link_loop_prev` /
`link_loop_radial_next`; `face` is `loop.face`, `select` is `face.select`,
`floop f i` is `face.loops[i]`, and `co` is `loop.vert.co` (integer-lattice
vertices suffice for the claims). -/
structure Mesh where
  loops : Nat
  faceCount : Nat
  next : Nat → Nat
  prev : Nat → Nat
  radial : Nat → Nat
  face : Nat → Nat
  select : Nat → Bool
  floop : Nat → Nat → Nat
  co : Nat → Int × Int × Int

/-- Helper `increment_loop` (lines 29-32): advance a loop `count` times along
`link_loop_next`. -/
def increment_loop (m : Mesh) (ℓ : Nat) : Nat → Nat
  | 0 => ℓ
  | count + 1 => increment_loop m (m.next ℓ) count

/-- One `FaceGrid.Item` (lines 35-39): a face's designated bottom loop and its
grid coordinates. -/
structure GridItem where
  loop : Nat
  x : Int
  y : Int
deriving DecidableEq, Repr

/-- The mutable state of a `FaceGrid` (lines 42-44): the face set, the item
list and the bounding box. -/
structure GridState where
  faces : List Nat
  items : List GridItem
  min_x : Int
  min_y : Int
  max_x : Int
  max_y : Int
deriving DecidableEq, Repr

/-- Realignment table `twin_adjust_loop = [2, 1, 0, 3]` (line 62). -/
def twin_adjust_loop : List Nat := [2, 1, 0, 3]

/-- Delta table `twin_delta_x = [0, 1, 0, -1]` (line 63). -/
def twin_delta_x : List Int := [0, 1, 0, -1]

/-- Delta table `twin_delta_y = [-1, 0, 1, 0]` (line 64). -/
def twin_delta_y : List Int := [-1, 0, 1, 0]

/-- A pending call of the traversal: either a fresh `add_item(loop, x, y)`
entry, or the `for i in range(4)` edge loop of an entry with the remaining
edge indices (the loop argument is the current, already advanced loop). -/
inductive TCall where
  | item (s : GridState) (ℓ : Nat) (x y : Int)
  | edges (s : GridState) (ℓ : Nat) (x y : Int) (es : List Nat)
deriving DecidableEq, Repr

/-- Traversal `FaceGrid.add_item` (lines 49-71) as a fuel-indexed step function; one
unit of fuel per call or per edge-loop iteration, so the recursion is
structural and runs by evaluation.  `.item`: raise (`Except.error ()`) when
the loop's face is not selected (lines 50-51), otherwise record the item,
grow the face set and the bounding box (lines 53-60) and process the four
edges.  `.edges`: for each edge, follow the radial twin when its face is
selected and not yet in this island's face set, realigning the twin by
`twin_adjust_loop[i]` and stepping the coordinates by the twin deltas
(lines 66-71); then advance to the face's next loop.  `none` means the fuel
ran out. -/
def runStep (m : Mesh) : Nat → TCall → Option (Except Unit GridState)
  | 0, _ => none
  | fuel + 1, .item s ℓ x y =>
    if m.select (m.face ℓ) then
      let s1 : GridState :=
        ⟨m.face ℓ :: s.faces, s.items ++ [⟨ℓ, x, y⟩],
         min s.min_x x, min s.min_y y, max s.max_x x, max s.max_y y⟩
      runStep m fuel (.edges s1 ℓ x y [0, 1, 2, 3])
    else
      some (.error ())
  | _ + 1, .edges s _ _ _ [] => some (.ok s)
  | fuel + 1, .edges s ℓ x y (i :: rest) =>
    let twin := m.radial ℓ
    let r :=
      if m.select (m.face twin) && !(s.faces.contains (m.face twin)) then
        runStep m fuel (.item s (increment_loop m twin (twin_adjust_loop.getD i 0))
          (x + twin_delta_x.getD i 0) (y + twin_delta_y.getD i 0))
      else
        some (.ok s)
    match r with
    | some (.ok s') => runStep m fuel (.edges s' (m.next ℓ) x y rest)
    | other => other

/-- Entry point `FaceGrid.add_item(loop, x, y)` run to completion on a given state. -/
def add_item (m : Mesh) (fuel : Nat) (s : GridState) (ℓ : Nat) (x y : Int) :
    Option (Except Unit GridState) :=
  runStep m fuel (.item s ℓ x y)

/-- The empty `FaceGrid` state from `FaceGrid.__init__` (lines 42-44). -/
def emptyGrid : GridState := ⟨[], [], 0, 0, 0, 0⟩

/-- Constructor `FaceGrid(loop)` (lines 41-45): start from an empty state and add the seed
loop at the origin. -/
def faceGrid (m : Mesh) (fuel : Nat) (ℓ : Nat) : Option (Except Unit GridState) :=
  add_item m fuel emptyGrid ℓ 0 0

/-- Structural well-formedness of the host mesh, as the spec's data model
assumes it (quad faces, manifold radial links): loop indices stay in range,
`next` stays on the same face, `radial` is an involution (a boundary loop is
its own radial twin, as in bmesh), a face's loops are exactly the four-step
`next` orbit of any one of them, and `face.loops[i]` is a loop of the face. -/
def Mesh.wf (m : Mesh) : Prop :=
  (∀ ℓ, ℓ < m.loops →
    m.next ℓ < m.loops ∧ m.radial ℓ < m.loops ∧
    m.face (m.next ℓ) = m.face ℓ ∧ m.radial (m.radial ℓ) = ℓ ∧
    m.face ℓ < m.faceCount) ∧
  (∀ ℓ, ℓ < m.loops → ∀ ℓ', ℓ' < m.loops → m.face ℓ = m.face ℓ' →
    ℓ' = ℓ ∨ ℓ' = m.next ℓ ∨ ℓ' = m.next (m.next ℓ) ∨
      ℓ' = m.next (m.next (m.next ℓ))) ∧
  (∀ f, f < m.faceCount → ∀ i, i < 4 →
    m.floop f i < m.loops ∧ m.face (m.floop f i) = f)

instance (m : Mesh) : Decidable m.wf := by
  unfold Mesh.wf; infer_instance

/-- Two faces of the mesh share an edge: some loop of `f` has its radial twin
on `g` (and the edge is interior, i.e. the twin is a different loop). -/
def sharesEdge (m : Mesh) (f g : Nat) : Prop :=
  ∃ ℓ, ℓ < m.loops ∧ m.face ℓ = f ∧ m.face (m.radial ℓ) = g ∧ m.radial ℓ ≠ ℓ

instance (m : Mesh) (f g : Nat) : Decidable (sharesEdge m f g) := by
  unfold sharesEdge; infer_instance

/-- Edge adjacency between selected faces: a loop of `f` whose radial twin
lies on `g`, with both faces selected.  This is the adjacency the traversal
follows. -/
def Adj (m : Mesh) (f g : Nat) : Prop :=
  ∃ ℓ, ℓ < m.loops ∧ m.face ℓ = f ∧ m.face (m.radial ℓ) = g ∧
    m.select f = true ∧ m.select g = true

/-- Transitive-reflexive closure of selected-face edge adjacency: `g` is in
the island component of `f`. -/
def Reach (m : Mesh) (f g : Nat) : Prop := Relation.ReflTransGen (Adj m) f g

/-- Closedness of a face list `F` at `g`: every selected face across an edge of `g` is in
`F`. -/
def closedIn (m : Mesh) (g : Nat) (F : List Nat) : Prop :=
  ∀ ℓ', ℓ' < m.loops → m.face ℓ' = g →
    m.select (m.face (m.radial ℓ')) = true → m.face (m.radial ℓ') ∈ F

/-- The four permitted coordinate deltas, in loop-edge order bottom, right,
top, left. -/
def unitDeltas : List (Int × Int) := [(0, -1), (1, 0), (0, 1), (-1, 0)]

/-- A recorded discovery step of the traversal: from the face item at
`(px, py)`, following loop-edge `i`, the realigned twin loop `cl` was added at
`(cx, cy)`. -/
structure DStep where
  px : Int
  py : Int
  i : Nat
  cl : Nat
  cx : Int
  cy : Int
deriving DecidableEq, Repr

/-- The traversal of `runStep` again, additionally returning the list of
discovery steps it performed (which recursive `add_item` call was made from
which item through which loop-edge).  This is ghost instrumentation only: the
grid-state component is proved to coincide with `runStep`
(`runStepD_erase`). -/
def runStepD (m : Mesh) : Nat → TCall → Option (Except Unit (GridState × List DStep))
  | 0, _ => none
  | fuel + 1, .item s ℓ x y =>
    if m.select (m.face ℓ) then
      let s1 : GridState :=
        ⟨m.face ℓ :: s.faces, s.items ++ [⟨ℓ, x, y⟩],
         min s.min_x x, min s.min_y y, max s.max_x x, max s.max_y y⟩
      runStepD m fuel (.edges s1 ℓ x y [0, 1, 2, 3])
    else
      some (.error ())
  | _ + 1, .edges s _ _ _ [] => some (.ok (s, []))
  | fuel + 1, .edges s ℓ x y (i :: rest) =>
    let twin := m.radial ℓ
    if m.select (m.face twin) && !(s.faces.contains (m.face twin)) then
      let cl := increment_loop m twin (twin_adjust_loop.getD i 0)
      let cx := x + twin_delta_x.getD i 0
      let cy := y + twin_delta_y.getD i 0
      match runStepD m fuel (.item s cl cx cy) with
      | some (.ok (s', ds)) =>
        match runStepD m fuel (.edges s' (m.next ℓ) x y rest) with
        | some (.ok (t, ds')) => some (.ok (t, ⟨x, y, i, cl, cx, cy⟩ :: ds ++ ds'))
        | other => other
      | some (.error e) => some (.error e)
      | none => none
    else
      runStepD m fuel (.edges s (m.next ℓ) x y rest)

/-- Variant of `add_item` with discovery-step instrumentation. -/
def add_itemD (m : Mesh) (fuel : Nat) (s : GridState) (ℓ : Nat) (x y : Int) :
    Option (Except Unit (GridState × List DStep)) :=
  runStepD m fuel (.item s ℓ x y)

/-- A single selected quad whose four edges are all boundary (each loop is its
own radial twin). -/
def mesh1 : Mesh where
  loops := 4
  faceCount := 1
  next := fun ℓ => (ℓ + 1) % 4
  prev := fun ℓ => (ℓ + 3) % 4
  radial := fun ℓ => ℓ
  face := fun _ => 0
  select := fun _ => true
  floop := fun _ i => i
  co := fun ℓ => ((ℓ : Int), 0, 0)

/-- The same quad, not selected. -/
def mesh2 : Mesh where
  loops := 4
  faceCount := 1
  next := fun ℓ => (ℓ + 1) % 4
  prev := fun ℓ => (ℓ + 3) % 4
  radial := fun ℓ => ℓ
  face := fun _ => 0
  select := fun _ => false
  floop := fun _ i => i
  co := fun ℓ => ((ℓ : Int), 0, 0)

/-- Four selected quads glued side to side around a square tube: face `f` has
loops `4f .. 4f+3` in `next` order, loop `4f+1` (right edge) is radially
glued to loop `4(f+1 mod 4)+3` (left edge of the next face), and the bottom
and top edges are boundary. -/
def ringMesh : Mesh where
  loops := 16
  faceCount := 4
  next := fun ℓ => 4 * (ℓ / 4) + ((ℓ % 4 + 1) % 4)
  prev := fun ℓ => 4 * (ℓ / 4) + ((ℓ % 4 + 3) % 4)
  radial := fun ℓ => [0, 7, 2, 13, 4, 11, 6, 1, 8, 15, 10, 5, 12, 3, 14, 9].getD ℓ ℓ
  face := fun ℓ => ℓ / 4
  select := fun f => decide (f < 4)
  floop := fun f i => 4 * f + i
  co := fun ℓ => ((ℓ : Int), 0, 0)

/-- The grid state the traversal reaches on `ringMesh` from loop 0. -/
def ringGrid : GridState :=
  match faceGrid ringMesh 64 0 with
  | some (.ok t) => t
  | _ => emptyGrid

/-- One member face of a cell (`Cell.Face`, lines 74-76): its bottom loop and
its intra-cell offset.  The offsets `face_x % subdivs.x`, `face_y % subdivs.y`
are integer-valued, so they are embedded as `Int`. -/
structure CellFace where
  loop : Nat
  x : Int
  y : Int
deriving DecidableEq, Repr

/-- A brick cell (`Cell.__init__`, lines 78-80): member faces and the four
border flags, CCW from bottom. -/
structure Cell where
  faces : List CellFace
  is_end : List Bool
deriving DecidableEq, Repr

/-- Fresh `Cell()`: no faces, `is_end = [False] * 4`. -/
def Cell.new : Cell := ⟨[], [false, false, false, false]⟩

/-- An `Island` (lines 82-118): member faces, the bounding-box extents in face
units, and the dense rows-of-cells array. -/
structure Island where
  faces : List Nat
  width : Int
  height : Int
  rows : List (List (Option Cell))
deriving DecidableEq, Repr

/-- Read `rows[y][x]` (empty when out of range; in-range indices are the only
ones the script produces). -/
def getSlot (rows : List (List (Option Cell))) (y x : Nat) : Option Cell :=
  (((rows.get? y).getD []).get? x).getD none

/-- Write `rows[y][x] = some c` (no-op when out of range). -/
def setSlot (rows : List (List (Option Cell))) (y x : Nat) (c : Cell) :
    List (List (Option Cell)) :=
  rows.set y (((rows.get? y).getD []).set x (some c))

/-- The body of the per-item loop of `Island.__init__` (lines 98-108): bucket
one grid item into its cell (creating the cell on first use) and append the
face with its intra-cell offset.  `face_x // int(subdivs.x)` is floor
division of the nonnegative `face_x`, i.e. `Int.ediv`; the indices are cast
to `Nat` for the array access. -/
def place_item (p : Params) (g : GridState) (rows : List (List (Option Cell)))
    (it : GridItem) : List (List (Option Cell)) :=
  let face_x := it.x - g.min_x
  let face_y := it.y - g.min_y
  let cell_x := face_x / p.subdivs.1
  let cell_y := face_y / p.subdivs.2
  let c := (getSlot rows cell_y.toNat cell_x.toNat).getD Cell.new
  let c' : Cell :=
    { c with faces := c.faces ++ [⟨it.loop, face_x % p.subdivs.1, face_y % p.subdivs.2⟩] }
  setSlot rows cell_y.toNat cell_x.toNat c'

/-- The border pass of `Island.__init__` (lines 110-118): for every present
cell, a flag is set when the cell is at the array boundary or the adjacent
slot is empty.  The pass only reads slot *presence*, which the in-place
Python mutation never changes, so mapping over the original array is
faithful. -/
def set_borders (rows : List (List (Option Cell))) : List (List (Option Cell)) :=
  let height := rows.length
  (List.range height).map fun y =>
    let row := (rows.get? y).getD []
    let width := row.length
    (List.range width).map fun x =>
      match getSlot rows y x with
      | none => none
      | some c => some { c with
          is_end := [
            decide (y = 0) || (getSlot rows (y - 1) x).isNone,
            decide (x = width - 1) || (getSlot rows y (x + 1)).isNone,
            decide (y = height - 1) || (getSlot rows (y + 1) x).isNone,
            decide (x = 0) || (getSlot rows y (x - 1)).isNone] }

/-- The seed-loop choice of `Island.__init__` (lines 85-90): compare vertex
coordinates by `(z, y, x)` ascending.  `co` is `(x, y, z)`, so `z` is
`.2.2`. -/
def coLess (v b : Int × Int × Int) : Bool :=
  (v.2.2 < b.2.2) || (v.2.2 == b.2.2 && v.2.1 < b.2.1) ||
    (v.2.2 == b.2.2 && v.2.1 == b.2.1 && v.1 < b.1)

/-- Seed choice `best = face.loops[0]; for i in range(1, 4): ...` (lines 85-90). -/
def best_loop (m : Mesh) (f : Nat) : Nat :=
  [1, 2, 3].foldl
    (fun best i =>
      if coLess (m.co (m.floop f i)) (m.co best) then m.floop f i else best)
    (m.floop f 0)

/-- Constructor `Island.__init__` (lines 83-118): run the `FaceGrid` traversal from the
seed loop, then build the `height × width` rows array (face-unit extents,
lines 95-97), bucket every item into its cell and set the border flags. -/
def island_init (m : Mesh) (p : Params) (fuel : Nat) (f : Nat) :
    Option (Except Unit Island) :=
  match faceGrid m fuel (best_loop m f) with
  | none => none
  | some (.error e) => some (.error e)
  | some (.ok g) =>
    let width := 1 + g.max_x - g.min_x
    let height := 1 + g.max_y - g.min_y
    let rows0 : List (List (Option Cell)) :=
      List.replicate height.toNat (List.replicate width.toNat none)
    let rows1 := g.items.foldl (place_item p g) rows0
    some (.ok ⟨g.faces, width, height, set_borders rows1⟩)

/-- Lookup `find_island` (lines 23-27): the first island whose face set contains the
face. -/
def find_island (islands : List Island) (f : Nat) : Option Island :=
  islands.find? fun i => i.faces.contains f

/-- The discovery loop of `main` (lines 168-171): walk the faces in order;
every selected face not yet claimed by an island seeds a new one. -/
def discoverFaces (m : Mesh) (p : Params) (fuel : Nat) :
    List Nat → List Island → Option (Except Unit (List Island))
  | [], acc => some (.ok acc)
  | f :: rest, acc =>
    if m.select f && (find_island acc f).isNone then
      match island_init m p fuel f with
      | none => none
      | some (.error e) => some (.error e)
      | some (.ok isl) => discoverFaces m p fuel rest (acc ++ [isl])
    else
      discoverFaces m p fuel rest acc

/-- All islands discovered by `main` over the mesh's faces. -/
def main_discover (m : Mesh) (p : Params) (fuel : Nat) :
    Option (Except Unit (List Island)) :=
  discoverFaces m p fuel (List.range m.faceCount) []

/-- Modelled from the spec: Python's `random.randrange(0, stop, 2)` (the one
stdlib call of `Island.apply`, lines 139-140), which returns an even integer
of `[0, stop)`; `r` is the RNG oracle choosing which of the
`(stop + 1) / 2` candidates is drawn. -/
def randrange_even (stop : Int) (r : Nat) : Int :=
  2 * ((r : Int) % ((stop + 1) / 2))

/-- The per-island atlas origin (lines 139-140): drawn once per `apply` call,
an even value below `texture_size // cell_size` on each axis when `random` is
enabled, else `(0, 0)`. -/
def island_origins (p : Params) (r1 r2 : Nat) : Int × Int :=
  (if p.random then randrange_even (p.texture_size.1 / p.cell_size.1) r1 else 0,
   if p.random then randrange_even (p.texture_size.2 / p.cell_size.2) r2 else 0)

/-- The texture span `Island.apply` computes for the cell at array position
`(x, y)` (lines 143-148): with `rotate` the span is taken from `(y, x)` using
the bottom/top border flags, otherwise from `(x, y)` using the left/right
flags. -/
def tex_span_at (p : Params) (rows : List (List (Option Cell)))
    (x_org y_org : Int) (x y : Nat) : Option (Int × Int × Int) :=
  match getSlot rows y x with
  | none => none
  | some cell =>
    some (if p.rotate then
      get_texture_span p (x_org + y) (y_org + x)
        (cell.is_end.getD 0 false) (cell.is_end.getD 2 false)
    else
      get_texture_span p (x_org + x) (y_org + y)
        (cell.is_end.getD 3 false) (cell.is_end.getD 1 false))

/-- The UV write loop walks the face's loops forward (`link_loop_next`), or
backward (`link_loop_prev`) when rotated (line 156). -/
def loop_walk (m : Mesh) (p : Params) (ℓ : Nat) : Nat → Nat
  | 0 => ℓ
  | k + 1 => loop_walk m p (if p.rotate then m.prev ℓ else m.next ℓ) k

/-- The body of `Island.apply` (lines 141-156) given the island's atlas
origin: for every present cell compute its texture span, then write one UV
per corner per member face, swapping the intra-cell offset axes when
rotated.  The result is the list of `(loop, uv)` writes in program order. -/
def apply_island_at (m : Mesh) (p : Params) (isl : Island) (org : Int × Int) :
    List (Nat × (ℚ × ℚ)) :=
  (List.range isl.height.toNat).flatMap fun y =>
    (List.range isl.width.toNat).flatMap fun x =>
      match tex_span_at p isl.rows org.1 org.2 x y with
      | none => []
      | some (tex_x, tex_y, tex_width) =>
        ((getSlot isl.rows y x).getD Cell.new).faces.flatMap fun face =>
          let fx : ℚ := if p.rotate then (face.y : ℚ) else (face.x : ℚ)
          let fy : ℚ := if p.rotate then (face.x : ℚ) else (face.y : ℚ)
          let corners : List (ℚ × ℚ) :=
            [(fx, fy), (fx + 1, fy), (fx + 1, fy + 1), (fx, fy + 1)]
          (List.range 4).map fun i =>
            (loop_walk m p face.loop i,
             get_uv p tex_x tex_y tex_width (corners.getD i (0, 0)).1
               (corners.getD i (0, 0)).2)

/-- Application `Island.apply` (lines 137-156): draw the atlas origin once, then emit
every UV write of the island. -/
def apply_island (m : Mesh) (p : Params) (isl : Island) (r1 r2 : Nat) :
    List (Nat × (ℚ × ℚ)) :=
  apply_island_at m p isl (island_origins p r1 r2)

/-- Driver `main` (lines 158-176): discover all islands, then apply each one, island
`k` drawing its origin from oracle `rng k`.  The second component is the list
of UV writes the invocation performed; a discovery error aborts before any
island is applied, so it carries no writes. -/
def main_run (m : Mesh) (p : Params) (fuel : Nat) (rng : Nat → Nat × Nat) :
    Option ((Except Unit Unit) × List (Nat × (ℚ × ℚ))) :=
  match main_discover m p fuel with
  | none => none
  | some (.error e) => some (.error e, [])
  | some (.ok islands) =>
    some (.ok (), (islands.enum.flatMap fun pr =>
      apply_island m p pr.2 (rng pr.1).1 (rng pr.1).2))

/-- The operator's default parameter record (lines 183-192), with the options
that default to on turned off; used as a plain concrete record. -/
def p0 : Params := ⟨(128, 128), (8, 8), false, false, false, false, false, false⟩

/-- A parameter record with subdivision enabled and `2 × 2` cells. -/
def pSub : Params := ⟨(128, 128), (2, 2), false, false, false, false, false, true⟩

/-- A parameter record with the randomized atlas origin enabled. -/
def pRand : Params := ⟨(128, 128), (8, 8), false, false, false, false, true, false⟩

/-- The islands `main` discovers on `mesh1`. -/
def islands1 : List Island :=
  match main_discover mesh1 p0 64 with
  | some (.ok l) => l
  | _ => []

/-- The island `main` discovers on `mesh1` with subdivision enabled. -/
def islandSub1 : Island :=
  match island_init mesh1 pSub 64 0 with
  | some (.ok isl) => isl
  | _ => ⟨[], 0, 0, []⟩

/-- The instrumented traversal's output on `ringMesh` from loop 0. -/
def ringGridD : GridState × List DStep :=
  match add_itemD ringMesh 64 emptyGrid 0 0 0 with
  | some (.ok td) => td
  | _ => (emptyGrid, [])

instance {ε α : Type} [DecidableEq ε] [DecidableEq α] : DecidableEq (Except ε α) :=
  fun a b =>
    match a, b with
    | .error e, .error e' =>
      if h : e = e' then isTrue (by rw [h]) else isFalse (fun hc => by cases hc; exact h rfl)
    | .ok v, .ok v' =>
      if h : v = v' then isTrue (by rw [h]) else isFalse (fun hc => by cases hc; exact h rfl)
    | .error _, .ok _ => isFalse (fun hc => by cases hc)
    | .ok _, .error _ => isFalse (fun hc => by cases hc)

/-- A full `2 × 2` block of present cells, used to instantiate the square
island of the rotation claim. -/
def rows2 : List (List (Option Cell)) :=
  List.replicate 2 (List.replicate 2 (some Cell.new))

/-- Row-array dimensions: `H` rows, each of width `W`. -/
def rowDims (rows : List (List (Option Cell))) (H W : Nat) : Prop :=
  rows.length = H ∧ ∀ r ∈ rows, r.length = W

/-- Every recorded discovery step is through one of the four loop-edges, its
coordinate delta is exactly the twin delta of that edge — one of the four
unit deltas — and both the parent item (at the step's source coordinates) and
the discovered child item are items of the final grid state. -/
def dsOK (t : GridState) (ds : List DStep) : Prop :=
  ∀ d ∈ ds, d.i < 4 ∧
    (d.cx - d.px, d.cy - d.py) = (twin_delta_x.getD d.i 0, twin_delta_y.getD d.i 0) ∧
    (d.cx - d.px, d.cy - d.py) ∈ unitDeltas ∧
    (∃ it ∈ t.items, it.x = d.px ∧ it.y = d.py) ∧
    (∃ it ∈ t.items, it.loop = d.cl ∧ it.x = d.cx ∧ it.y = d.cy)

/-- Every island of the list is the full selected component of some selected
seed face. -/
def GoodAcc (m : Mesh) (acc : List Island) : Prop :=
  ∀ I ∈ acc, ∃ s0, s0 < m.faceCount ∧ m.select s0 = true ∧
    ∀ g, g ∈ I.faces ↔ Reach m s0 g

/-- The islands of the list have pairwise disjoint face sets. -/
def DisjAcc (acc : List Island) : Prop :=
  List.Pairwise (fun I J => ∀ g, g ∈ I.faces → g ∉ J.faces) acc

/-! ## Theorems -/

/-! ### List and loop-arithmetic helpers -/

theorem list_set_of_length_le {α : Type} (l : List α) (n : Nat) (a : α)
    (h : l.length ≤ n) : l.set n a = l := by
  induction l generalizing n with
  | nil => simp
  | cons b t ih =>
    cases n with
    | zero => simp at h
    | succ n => simpa using ih n (by simpa using h)

theorem increment_loop_zero (m : Mesh) (ℓ : Nat) : increment_loop m ℓ 0 = ℓ := rfl

theorem increment_loop_succ (m : Mesh) (ℓ : Nat) (k : Nat) :
    increment_loop m ℓ (k + 1) = increment_loop m (m.next ℓ) k := rfl

theorem increment_loop_wf (m : Mesh) (hwf : m.wf) :
    ∀ (k : Nat) (ℓ : Nat), ℓ < m.loops →
      increment_loop m ℓ k < m.loops ∧ m.face (increment_loop m ℓ k) = m.face ℓ := by
  intro k
  induction k with
  | zero => intro ℓ hℓ; exact ⟨hℓ, rfl⟩
  | succ k ih =>
    intro ℓ hℓ
    have h1 := (hwf.1 ℓ hℓ).1
    have h2 := (hwf.1 ℓ hℓ).2.2.1
    have := ih (m.next ℓ) h1
    exact ⟨this.1, by rw [increment_loop_succ, this.2, h2]⟩

theorem best_loop_is_floop (m : Mesh) (f : Nat) :
    ∃ i, i < 4 ∧ best_loop m f = m.floop f i := by
  unfold best_loop
  simp only [List.foldl]
  split_ifs <;>
    first
      | exact ⟨0, by omega, rfl⟩
      | exact ⟨1, by omega, rfl⟩
      | exact ⟨2, by omega, rfl⟩
      | exact ⟨3, by omega, rfl⟩

/-- C3: `get_uv` returns exactly the pair `(u, 1 - v)` with
`u = (0.5 + (tex_x + span_width * face_x / subdivs.x) * cell_size.x) / texture_size.x`
and `v = (0.5 + (tex_y + face_y / subdivs.y) * cell_size.y) / texture_size.y`;
the second component is always 1 minus the raw v value. -/
theorem get_uv_formula (p : Params) (tex_x tex_y span_width : Int)
    (face_x face_y : ℚ) :
    get_uv p tex_x tex_y span_width face_x face_y =
      ((1/2 + ((tex_x : ℚ) + (span_width : ℚ) * face_x / (p.subdivs.1 : ℚ))
          * (p.cell_size.1 : ℚ)) / (p.texture_size.1 : ℚ),
       1 - (1/2 + ((tex_y : ℚ) + face_y / (p.subdivs.2 : ℚ))
          * (p.cell_size.2 : ℚ)) / (p.texture_size.2 : ℚ)) := rfl

/-- C4: with `double_halves = False` the returned span width is 1 for every
input coordinate pair and every combination of the border flags. -/
theorem span_width_one_of_not_double_halves (p : Params) (x y : Int)
    (is_start_x is_end_x : Bool) (h : p.double_halves = false) :
    (get_texture_span p x y is_start_x is_end_x).2.2 = 1 := by
  simp [get_texture_span, h]

/-- Witness for C4 at a concrete parameter record and input. -/
theorem span_width_one_of_not_double_halves_witness :
    (⟨(128, 128), (8, 8), false, true, false, false, false, false⟩ :
        Params).double_halves = false ∧
    (get_texture_span ⟨(128, 128), (8, 8), false, true, false, false, false, false⟩
        5 7 true false).2.2 = 1 :=
  ⟨rfl, span_width_one_of_not_double_halves _ 5 7 true false rfl⟩

/-- C5: with `double_halves = True` and both border flags set, the span width
is always 2, and the returned x coordinate is shifted back by 1 (relative to
the unconditional running-bond shift) exactly when the phase
`(x + y + offset) % 2 == 1` is true. -/
theorem span_double_when_isolated (p : Params) (x y : Int)
    (h : p.double_halves = true) :
    (get_texture_span p x y true true).2.2 = 2 ∧
    (get_texture_span p x y true true).1 =
      x + (if p.offset then 1 else 0)
        - (if (x + y + (if p.offset then 1 else 0)) % 2 == 1 then 1 else 0) := by
  constructor
  · cases hph : ((x + y + (if p.offset then (1 : Int) else 0)) % 2 == 1) <;>
      simp [get_texture_span, h, hph]
  · cases hph : ((x + y + (if p.offset then (1 : Int) else 0)) % 2 == 1) <;>
      simp [get_texture_span, h, hph] <;> ring

/-- Witness for C5: an isolated cell at `(3, 4)` with offset disabled has
phase `(3+4+0) % 2 == 1` true, so the span is 2 wide and starts at `x - 1`. -/
theorem span_double_when_isolated_witness :
    (⟨(128, 128), (8, 8), false, false, true, false, false, false⟩ :
        Params).double_halves = true ∧
    (get_texture_span ⟨(128, 128), (8, 8), false, false, true, false, false, false⟩
        3 4 true true).2.2 = 2 ∧
    (get_texture_span ⟨(128, 128), (8, 8), false, false, true, false, false, false⟩
        3 4 true true).1 = 2 :=
  ⟨rfl, (span_double_when_isolated _ 3 4 rfl).1,
    by
      have h := (span_double_when_isolated
        ⟨(128, 128), (8, 8), false, false, true, false, false, false⟩ 3 4 rfl).2
      simpa using h⟩

/-- C10: an interior cell (both border flags false) always gets span width 1
and x coordinate `x` plus the running-bond shift (1 when `offset` is enabled,
0 otherwise), even when `double_halves` is enabled and whatever the phase. -/
theorem interior_span_unchanged (p : Params) (x y : Int) :
    (get_texture_span p x y false false).2.2 = 1 ∧
    (get_texture_span p x y false false).1 =
      x + (if p.offset then 1 else 0) := by
  cases hdh : p.double_halves <;> simp [get_texture_span, hdh]

/-! ### Row-array dimensions (C6) -/

theorem place_item_dims (p : Params) (g : GridState) (rows : List (List (Option Cell)))
    (it : GridItem) (H W : Nat) (hd : rowDims rows H W) :
    rowDims (place_item p g rows it) H W := by
  obtain ⟨hlen, hrow⟩ := hd
  unfold place_item setSlot
  set cy := ((it.y - g.min_y) / p.subdivs.2).toNat with hcy
  set cx := ((it.x - g.min_x) / p.subdivs.1).toNat with hcx
  by_cases hy : cy < rows.length
  · have hr : rows.get? cy = some (rows.get ⟨cy, hy⟩) := List.get?_eq_get hy
    set r := rows.get ⟨cy, hy⟩ with hrdef
    constructor
    · simpa using hlen
    · intro r' hr'
      rcases List.mem_or_eq_of_mem_set hr' with h | h
      · exact hrow r' h
      · subst h
        rw [hr]
        simp only [Option.getD_some]
        rw [List.length_set]
        exact hrow r (List.get?_mem hr)
  · rw [list_set_of_length_le _ _ _ (by omega)]
    exact ⟨hlen, hrow⟩

theorem foldl_place_item_dims (p : Params) (g : GridState) (H W : Nat) :
    ∀ (items : List GridItem) (rows : List (List (Option Cell))),
      rowDims rows H W → rowDims (items.foldl (place_item p g) rows) H W := by
  intro items
  induction items with
  | nil => intro rows h; simpa using h
  | cons it rest ih =>
    intro rows h
    exact ih _ (place_item_dims p g rows it H W h)

theorem set_borders_dims (rows : List (List (Option Cell))) (H W : Nat)
    (hd : rowDims rows H W) : rowDims (set_borders rows) H W := by
  obtain ⟨hlen, hrow⟩ := hd
  unfold set_borders
  constructor
  · simpa using hlen
  · intro r hr
    simp only [List.mem_map, List.mem_range] at hr
    obtain ⟨y, hy, hr⟩ := hr
    subst hr
    simp only [List.length_map, List.length_range]
    have hy' : y < rows.length := by omega
    obtain ⟨r0, hr0⟩ : ∃ r0, rows.get? y = some r0 := by
      exact ⟨rows.get ⟨y, hy'⟩, List.get?_eq_get hy'⟩
    rw [hr0]
    simpa using hrow r0 (List.get?_mem hr0)

/-- C6 (amended): the dense rows array built by `Island.__init__` has
`height × width` slots where `width` and `height` are the island
bounding-box extents in *face* units (`1 + max - min`), with no division by
`subdivs`; with subdivision enabled the array is therefore sized in face
units, not cell units, and the cell indices only occupy a prefix of it. -/
theorem island_rows_face_unit_dims (m : Mesh) (p : Params) (fuel : Nat) (f : Nat)
    (isl : Island) (h : island_init m p fuel f = some (.ok isl)) :
    ∃ g, faceGrid m fuel (best_loop m f) = some (.ok g) ∧
      isl.width = 1 + g.max_x - g.min_x ∧
      isl.height = 1 + g.max_y - g.min_y ∧
      isl.rows.length = isl.height.toNat ∧
      ∀ r ∈ isl.rows, r.length = isl.width.toNat := by
  unfold island_init at h
  cases hg : faceGrid m fuel (best_loop m f) with
  | none => rw [hg] at h; exact absurd h (by simp)
  | some e =>
    cases e with
    | error e => rw [hg] at h; exact absurd h (by simp)
    | ok g =>
      rw [hg] at h
      simp only [Option.some.injEq, Except.ok.injEq] at h
      refine ⟨g, rfl, ?_⟩
      have hd0 : rowDims (List.replicate (1 + g.max_y - g.min_y).toNat
          (List.replicate (1 + g.max_x - g.min_x).toNat (none : Option Cell)))
          (1 + g.max_y - g.min_y).toNat (1 + g.max_x - g.min_x).toNat := by
        constructor
        · simp
        · intro r hr
          rw [List.eq_of_mem_replicate hr]
          simp
      have hd1 := foldl_place_item_dims p g _ _ g.items _ hd0
      have hd2 := set_borders_dims _ _ _ hd1
      rw [← h]
      exact ⟨rfl, rfl, hd2.1, hd2.2⟩

/-- Witness for the amended C6 at the single-face mesh with `2 × 2`
subdivision. -/
theorem island_rows_face_unit_dims_witness :
    island_init mesh1 pSub 64 0 = some (.ok islandSub1) ∧
    ∃ g, faceGrid mesh1 64 (best_loop mesh1 0) = some (.ok g) ∧
      islandSub1.width = 1 + g.max_x - g.min_x ∧
      islandSub1.height = 1 + g.max_y - g.min_y ∧
      islandSub1.rows.length = islandSub1.height.toNat ∧
      ∀ r ∈ islandSub1.rows, r.length = islandSub1.width.toNat :=
  ⟨by decide, island_rows_face_unit_dims mesh1 pSub 64 0 islandSub1 (by decide)⟩

/-- Counterexample to C6 as stated: on a single selected face with
subdivision `2 × 2`, the bounding-box extents are `1 × 1`, so dividing by
`subdivs` (integer division) would give a `0 × 0` array, but the code builds
a `1 × 1` array. -/
theorem island_rows_not_divided_by_subdivs :
    island_init mesh1 pSub 64 0 = some (.ok islandSub1) ∧
    islandSub1.height = 1 ∧ islandSub1.width = 1 ∧
    pSub.subdivs = (2, 2) ∧
    islandSub1.rows.length = 1 ∧
    (islandSub1.rows.getD 0 []).length = 1 ∧
    islandSub1.rows.length ≠ (islandSub1.height / pSub.subdivs.2).toNat ∧
    (islandSub1.rows.getD 0 []).length ≠ (islandSub1.width / pSub.subdivs.1).toNat := by
  decide

/-! ### Discovery-step deltas (C1) -/

/-- Counterexample to C1 as stated: on the ring of four quads, faces 0 and 3
are selected, share an edge and are discovered in the same island, but their
assigned grid coordinates are `(0, 0)` and `(3, 0)` — a delta of `(-3, 0)`,
which is none of the four unit deltas.  (The traversal reaches face 3 the
long way around the ring and the shared edge back to face 0 is skipped
because face 0 is already in the island.) -/
theorem adjacent_delta_counterexample :
    faceGrid ringMesh 64 0 = some (.ok ringGrid) ∧
    (⟨0, 0, 0⟩ : GridItem) ∈ ringGrid.items ∧
    (⟨12, 3, 0⟩ : GridItem) ∈ ringGrid.items ∧
    ringMesh.face 0 = 0 ∧ ringMesh.face 12 = 3 ∧
    ringMesh.select 0 = true ∧ ringMesh.select 3 = true ∧
    sharesEdge ringMesh 3 0 ∧
    ¬ (∀ it1 ∈ ringGrid.items, ∀ it2 ∈ ringGrid.items,
        sharesEdge ringMesh (ringMesh.face it1.loop) (ringMesh.face it2.loop) →
        (it2.x - it1.x, it2.y - it1.y) ∈ unitDeltas) := by
  decide

theorem dsOK_mono (t1 t2 : GridState) (ds : List DStep)
    (hsub : ∀ it ∈ t1.items, it ∈ t2.items) (h : dsOK t1 ds) : dsOK t2 ds := by
  intro d hd
  obtain ⟨h1, h2, h3, ⟨p, hp, hp'⟩, ⟨c, hc, hc'⟩⟩ := h d hd
  exact ⟨h1, h2, h3, ⟨p, hsub p hp, hp'⟩, ⟨c, hsub c hc, hc'⟩⟩

theorem delta_of_edge_mem :
    ∀ j, j < 4 → (twin_delta_x.getD j 0, twin_delta_y.getD j 0) ∈ unitDeltas := by
  decide

/-- Dropping the instrumentation recovers the plain traversal. -/
theorem runStepD_erase (m : Mesh) :
    ∀ fuel c, (runStepD m fuel c).map (Except.map Prod.fst) = runStep m fuel c := by
  intro fuel
  induction fuel with
  | zero => intro c; rfl
  | succ fuel ih =>
    intro c
    cases c with
    | item s ℓ x y =>
      simp only [runStepD, runStep]
      by_cases hsel : m.select (m.face ℓ)
      · simp only [hsel, if_true]
        exact ih _
      · simp [hsel, Except.map]
    | edges s ℓ x y es =>
      cases es with
      | nil => simp [runStepD, runStep, Except.map]
      | cons i rest =>
        simp only [runStepD, runStep]
        by_cases hg : (m.select (m.face (m.radial ℓ)) &&
            !(s.faces.contains (m.face (m.radial ℓ)))) = true
        · simp only [hg, if_true]
          rw [← ih (.item s (increment_loop m (m.radial ℓ) (twin_adjust_loop.getD i 0))
            (x + twin_delta_x.getD i 0) (y + twin_delta_y.getD i 0))]
          cases hn : runStepD m fuel (.item s
              (increment_loop m (m.radial ℓ) (twin_adjust_loop.getD i 0))
              (x + twin_delta_x.getD i 0) (y + twin_delta_y.getD i 0)) with
          | none => simp
          | some e =>
            cases e with
            | error e => simp [Except.map]
            | ok pr =>
              obtain ⟨s', ds1⟩ := pr
              simp only [Option.map_some', Except.map]
              rw [← ih (.edges s' (m.next ℓ) x y rest)]
              cases ht : runStepD m fuel (.edges s' (m.next ℓ) x y rest) with
              | none => simp
              | some e2 =>
                cases e2 with
                | error e2 => simp [Except.map]
                | ok pr2 =>
                  obtain ⟨t2, ds2⟩ := pr2
                  simp [Except.map]
        · simp only [hg, if_false, Bool.false_eq_true]
          exact ih _

/-- Invariant of the instrumented traversal: the item list only grows, the
entry item is recorded, and every recorded discovery step is well-formed
(`dsOK`). -/
theorem runStepD_inv (m : Mesh) :
    ∀ fuel c t ds, runStepD m fuel c = some (.ok (t, ds)) →
      (match c with
       | .item s ℓ x y =>
          (∀ it ∈ s.items, it ∈ t.items) ∧
          (⟨ℓ, x, y⟩ : GridItem) ∈ t.items ∧ dsOK t ds
       | .edges s _ x y es =>
          (∀ it ∈ s.items, it ∈ t.items) ∧
          ((∀ j ∈ es, j < 4) → (∃ it ∈ t.items, it.x = x ∧ it.y = y) →
            dsOK t ds)) := by
  intro fuel
  induction fuel with
  | zero => intro c t ds h; exact absurd h (by simp [runStepD])
  | succ fuel ih =>
    intro c t ds h
    cases c with
    | item s ℓ x y =>
      simp only [runStepD] at h
      by_cases hsel : m.select (m.face ℓ)
      · rw [if_pos hsel] at h
        have IH := ih _ _ _ h
        obtain ⟨mono, hcond⟩ := IH
        have hparent : (⟨ℓ, x, y⟩ : GridItem) ∈ t.items := by
          apply mono
          simp
        refine ⟨?_, hparent, ?_⟩
        · intro it hit
          apply mono
          simp [hit]
        · exact hcond (by decide) ⟨⟨ℓ, x, y⟩, hparent, rfl, rfl⟩
      · rw [if_neg hsel] at h
        exact absurd h (by simp)
    | edges s ℓ x y es =>
      cases es with
      | nil =>
        simp only [runStepD, Option.some.injEq, Except.ok.injEq, Prod.mk.injEq] at h
        obtain ⟨rfl, rfl⟩ := h
        exact ⟨fun it hit => hit, fun _ _ d hd => absurd hd (by simp)⟩
      | cons i rest =>
        simp only [runStepD] at h
        by_cases hg : (m.select (m.face (m.radial ℓ)) &&
            !(s.faces.contains (m.face (m.radial ℓ)))) = true
        · rw [if_pos hg] at h
          cases hn : runStepD m fuel (.item s
              (increment_loop m (m.radial ℓ) (twin_adjust_loop.getD i 0))
              (x + twin_delta_x.getD i 0) (y + twin_delta_y.getD i 0)) with
          | none => rw [hn] at h; exact absurd h (by simp)
          | some e =>
            cases e with
            | error e => rw [hn] at h; exact absurd h (by simp)
            | ok pr =>
              obtain ⟨s', ds1⟩ := pr
              simp only [hn] at h
              cases ht : runStepD m fuel (.edges s' (m.next ℓ) x y rest) with
              | none => rw [ht] at h; exact absurd h (by simp)
              | some e2 =>
                cases e2 with
                | error e2 => rw [ht] at h; exact absurd h (by simp)
                | ok pr2 =>
                  obtain ⟨t2, ds2⟩ := pr2
                  simp only [ht, Option.some.injEq, Except.ok.injEq, Prod.mk.injEq] at h
                  obtain ⟨rfl, rfl⟩ := h
                  have IHn := ih _ _ _ hn
                  obtain ⟨mono1, hchild, hds1⟩ := IHn
                  have IHt := ih _ _ _ ht
                  obtain ⟨mono2, hcond2⟩ := IHt
                  refine ⟨fun it hit => mono2 it (mono1 it hit), ?_⟩
                  intro hbound hpar
                  intro d hd
                  rcases List.mem_cons.mp hd with hd0 | hdtail
                  · subst hd0
                    refine ⟨hbound i (by simp), by simp, ?_, hpar, ?_⟩
                    · simpa using delta_of_edge_mem i (hbound i (by simp))
                    · exact ⟨_, mono2 _ hchild, rfl, rfl, rfl⟩
                  · rcases List.mem_append.mp hdtail with hd1 | hd2
                    · exact dsOK_mono _ _ _ mono2 hds1 d hd1
                    · exact hcond2 (fun j hj => hbound j (by simp [hj])) hpar d hd2
        · rw [if_neg hg] at h
          have IH := ih _ _ _ h
          obtain ⟨mono, hcond⟩ := IH
          exact ⟨mono, fun hbound hpar =>
            hcond (fun j hj => hbound j (by simp [hj])) hpar⟩

/-- C1 (amended): the unit-delta invariant holds for the pairs the traversal
actually creates: for every discovery step of `add_item` — the traversal
recursing from the face item at `(px, py)` through loop-edge `i` into a new
neighbor — the two faces' assigned grid coordinates differ by exactly
`twin_delta[i]`, which is `(0,-1)`, `(1,0)`, `(0,1)` or `(-1,0)` for
`i` = bottom, right, top, left; it does not hold for arbitrary edge-adjacent
pairs of the same island (see the counterexample).  The first conjunct
checks the instrumentation against the plain traversal. -/
theorem discovery_step_deltas (m : Mesh) (fuel : Nat) (s : GridState) (ℓ : Nat)
    (x y : Int) (t : GridState) (ds : List DStep)
    (h : add_itemD m fuel s ℓ x y = some (.ok (t, ds))) :
    (add_itemD m fuel s ℓ x y).map (Except.map Prod.fst) = add_item m fuel s ℓ x y ∧
    ∀ d ∈ ds, d.i < 4 ∧
      (d.cx - d.px, d.cy - d.py) = (twin_delta_x.getD d.i 0, twin_delta_y.getD d.i 0) ∧
      (d.cx - d.px, d.cy - d.py) ∈ unitDeltas ∧
      (∃ it ∈ t.items, it.x = d.px ∧ it.y = d.py) ∧
      (∃ it ∈ t.items, it.loop = d.cl ∧ it.x = d.cx ∧ it.y = d.cy) :=
  ⟨runStepD_erase m fuel (.item s ℓ x y), (runStepD_inv m fuel (.item s ℓ x y) t ds h).2.2⟩

/-- Witness for the amended C1 on the four-quad ring: the instrumented
traversal completes and every one of its three discovery steps satisfies the
delta invariant. -/
theorem discovery_step_deltas_witness :
    add_itemD ringMesh 64 emptyGrid 0 0 0 = some (.ok (ringGridD.1, ringGridD.2)) ∧
    ((add_itemD ringMesh 64 emptyGrid 0 0 0).map (Except.map Prod.fst) =
        add_item ringMesh 64 emptyGrid 0 0 0 ∧
     ∀ d ∈ ringGridD.2, d.i < 4 ∧
      (d.cx - d.px, d.cy - d.py) = (twin_delta_x.getD d.i 0, twin_delta_y.getD d.i 0) ∧
      (d.cx - d.px, d.cy - d.py) ∈ unitDeltas ∧
      (∃ it ∈ ringGridD.1.items, it.x = d.px ∧ it.y = d.py) ∧
      (∃ it ∈ ringGridD.1.items, it.loop = d.cl ∧ it.x = d.cx ∧ it.y = d.cy)) :=
  ⟨by decide, discovery_step_deltas ringMesh 64 emptyGrid 0 0 0 ringGridD.1 ringGridD.2
    (by decide)⟩

/-! ### Island discovery is a partition (C2) -/

theorem closedIn_mono (m : Mesh) (g : Nat) (F F' : List Nat)
    (hsub : ∀ a ∈ F, a ∈ F') (h : closedIn m g F) : closedIn m g F' := by
  intro ℓ' h1 h2 h3
  exact hsub _ (h ℓ' h1 h2 h3)

theorem Adj_symm (m : Mesh) (hwf : m.wf) (f g : Nat) (h : Adj m f g) : Adj m g f := by
  obtain ⟨ℓ, hℓ, hface, hrad, hsf, hsg⟩ := h
  exact ⟨m.radial ℓ, (hwf.1 ℓ hℓ).2.1, hrad, by rw [(hwf.1 ℓ hℓ).2.2.2.1, hface], hsg, hsf⟩

theorem Reach_symm (m : Mesh) (hwf : m.wf) (f g : Nat) (h : Reach m f g) :
    Reach m g f := by
  induction h with
  | refl => exact Relation.ReflTransGen.refl
  | tail _ hadj ihr =>
    exact Relation.ReflTransGen.head (Adj_symm m hwf _ _ hadj) ihr

/-- Postcondition of a completed traversal step: the face set only grows,
every newly added face is selected and reachable from the entry face, and
the final face set is closed at every newly added face; for an edge loop,
the selected twin face of each processed edge ends up in the face set. -/
theorem runStep_post (m : Mesh) (hwf : m.wf) :
    ∀ fuel c t, runStep m fuel c = some (.ok t) →
      (match c with
       | .item s ℓ _ _ => ℓ < m.loops →
          (∀ g ∈ s.faces, g ∈ t.faces) ∧ m.face ℓ ∈ t.faces ∧
          (∀ g ∈ t.faces, g ∈ s.faces ∨ (m.select g = true ∧ Reach m (m.face ℓ) g)) ∧
          (∀ g ∈ t.faces, g ∉ s.faces → closedIn m g t.faces)
       | .edges s ℓ _ _ es => ℓ < m.loops → m.select (m.face ℓ) = true →
          m.face ℓ ∈ s.faces →
          (∀ g ∈ s.faces, g ∈ t.faces) ∧
          (∀ g ∈ t.faces, g ∈ s.faces ∨ (m.select g = true ∧ Reach m (m.face ℓ) g)) ∧
          (∀ g ∈ t.faces, g ∉ s.faces → closedIn m g t.faces) ∧
          (∀ k, k < es.length →
            m.select (m.face (m.radial (increment_loop m ℓ k))) = true →
            m.face (m.radial (increment_loop m ℓ k)) ∈ t.faces)) := by
  intro fuel
  induction fuel with
  | zero => intro c t h; exact absurd h (by simp [runStep])
  | succ fuel ih =>
    intro c t h
    cases c with
    | item s ℓ x y =>
      intro hℓ
      simp only [runStep] at h
      by_cases hsel : m.select (m.face ℓ)
      · rw [if_pos hsel] at h
        have IH := ih _ _ h hℓ hsel (by simp)
        obtain ⟨mono, reachE, closE, coverE⟩ := IH
        refine ⟨fun g hg => mono g (by simp [hg]), mono (m.face ℓ) (by simp), ?_, ?_⟩
        · intro g hg
          rcases reachE g hg with hg1 | hg2
          · rcases List.mem_cons.mp hg1 with h0 | h1
            · exact Or.inr ⟨h0 ▸ hsel, h0 ▸ Relation.ReflTransGen.refl⟩
            · exact Or.inl h1
          · exact Or.inr hg2
        · intro g hg hgs
          by_cases hgf : g = m.face ℓ
          · subst hgf
            intro ℓ' hℓ' hface hselnbr
            rcases hwf.2.1 ℓ hℓ ℓ' hℓ' hface.symm with h0 | h0 | h0 | h0
            · subst h0; exact coverE 0 (by simp) hselnbr
            · subst h0; exact coverE 1 (by simp) hselnbr
            · subst h0; exact coverE 2 (by simp) hselnbr
            · subst h0; exact coverE 3 (by simp) hselnbr
          · exact closE g hg (by simp [hgs, hgf])
      · rw [if_neg hsel] at h
        exact absurd h (by simp)
    | edges s ℓ x y es =>
      intro hℓ hsel hmem
      have hnext_lt : m.next ℓ < m.loops := (hwf.1 ℓ hℓ).1
      have hfacenext : m.face (m.next ℓ) = m.face ℓ := (hwf.1 ℓ hℓ).2.2.1
      cases es with
      | nil =>
        simp only [runStep, Option.some.injEq, Except.ok.injEq] at h
        subst h
        refine ⟨fun g hg => hg, fun g hg => Or.inl hg,
          fun g hg hgs => absurd hg hgs, ?_⟩
        intro k hk
        simp at hk
      | cons i rest =>
        simp only [runStep] at h
        by_cases hg : (m.select (m.face (m.radial ℓ)) &&
            !(s.faces.contains (m.face (m.radial ℓ)))) = true
        · rw [if_pos hg] at h
          have hselTwin : m.select (m.face (m.radial ℓ)) = true := by
            have hand := hg
            rw [Bool.and_eq_true] at hand
            exact hand.1
          cases hn : runStep m fuel (.item s
              (increment_loop m (m.radial ℓ) (twin_adjust_loop.getD i 0))
              (x + twin_delta_x.getD i 0) (y + twin_delta_y.getD i 0)) with
          | none => rw [hn] at h; exact absurd h (by simp)
          | some e =>
            cases e with
            | error e => rw [hn] at h; exact absurd h (by simp)
            | ok s' =>
              simp only [hn] at h
              have htwin_lt : m.radial ℓ < m.loops := (hwf.1 ℓ hℓ).2.1
              have hcl := increment_loop_wf m hwf (twin_adjust_loop.getD i 0)
                (m.radial ℓ) htwin_lt
              have IHn := ih _ _ hn hcl.1
              rw [hcl.2] at IHn
              obtain ⟨mono1, hclT, reach1, clos1⟩ := IHn
              have IHt := ih _ _ h hnext_lt (by rw [hfacenext]; exact hsel)
                (by rw [hfacenext]; exact mono1 _ hmem)
              rw [hfacenext] at IHt
              obtain ⟨mono2, reach2, clos2, cover2⟩ := IHt
              have hAdjStep : Adj m (m.face ℓ) (m.face (m.radial ℓ)) :=
                ⟨ℓ, hℓ, rfl, rfl, hsel, hselTwin⟩
              refine ⟨fun g hg' => mono2 g (mono1 g hg'), ?_, ?_, ?_⟩
              · intro g hgT
                rcases reach2 g hgT with hgs' | hr
                · rcases reach1 g hgs' with hgs | ⟨hselg, hreach⟩
                  · exact Or.inl hgs
                  · exact Or.inr ⟨hselg, Relation.ReflTransGen.head hAdjStep hreach⟩
                · exact Or.inr hr
              · intro g hgT hgs
                by_cases hgmem : g ∈ s'.faces
                · exact closedIn_mono m g _ _ mono2 (clos1 g hgmem hgs)
                · exact clos2 g hgT hgmem
              · intro k hk hselk
                cases k with
                | zero => exact mono2 _ hclT
                | succ k =>
                  rw [increment_loop_succ] at hselk ⊢
                  exact cover2 k (by simpa using hk) hselk
        · rw [if_neg hg] at h
          simp only at h
          have IHt := ih _ _ h hnext_lt (by rw [hfacenext]; exact hsel)
            (by rw [hfacenext]; exact hmem)
          rw [hfacenext] at IHt
          obtain ⟨mono2, reach2, clos2, cover2⟩ := IHt
          refine ⟨mono2, reach2, clos2, ?_⟩
          intro k hk hselk
          cases k with
          | zero =>
            rw [increment_loop_zero] at hselk
            cases hb : s.faces.contains (m.face (m.radial ℓ)) with
            | true => exact mono2 _ (by simpa using hb)
            | false =>
              have hbm : m.face (m.radial ℓ) ∉ s.faces := by simpa using hb
              exact absurd (by simp [hselk, hbm]) hg
          | succ k =>
            rw [increment_loop_succ] at hselk ⊢
            exact cover2 k (by simpa using hk) hselk

theorem runStep_item_sel (m : Mesh) (fuel : Nat) (s : GridState) (ℓ : Nat)
    (x y : Int) (t : GridState) (h : runStep m fuel (.item s ℓ x y) = some (.ok t)) :
    m.select (m.face ℓ) = true := by
  cases fuel with
  | zero => exact absurd h (by simp [runStep])
  | succ fuel =>
    simp only [runStep] at h
    by_cases hsel : m.select (m.face ℓ)
    · exact hsel
    · rw [if_neg hsel] at h
      exact absurd h (by simp)

/-- A successfully constructed island is exactly the selected component of
its seed face. -/
theorem island_init_component (m : Mesh) (p : Params) (fuel : Nat) (f : Nat)
    (isl : Island) (hwf : m.wf) (hf : f < m.faceCount)
    (h : island_init m p fuel f = some (.ok isl)) :
    m.select f = true ∧ ∀ g, g ∈ isl.faces ↔ Reach m f g := by
  obtain ⟨i, hi4, hbest⟩ := best_loop_is_floop m f
  have hfl := hwf.2.2 f hf i hi4
  have hbl : best_loop m f < m.loops := by rw [hbest]; exact hfl.1
  have hbf : m.face (best_loop m f) = f := by rw [hbest]; exact hfl.2
  unfold island_init at h
  cases hg : faceGrid m fuel (best_loop m f) with
  | none => rw [hg] at h; exact absurd h (by simp)
  | some e =>
    cases e with
    | error e => rw [hg] at h; exact absurd h (by simp)
    | ok g =>
      rw [hg] at h
      simp only [Option.some.injEq, Except.ok.injEq] at h
      have hrun : runStep m fuel (.item emptyGrid (best_loop m f) 0 0) =
          some (.ok g) := hg
      have hsel : m.select f = true := by
        rw [← hbf]; exact runStep_item_sel m fuel _ _ 0 0 g hrun
      have hpost := runStep_post m hwf fuel _ _ hrun hbl
      obtain ⟨_, hin, reach0, clos0⟩ := hpost
      have hfaces : isl.faces = g.faces := by rw [← h]
      refine ⟨hsel, ?_⟩
      intro g'
      rw [hfaces]
      constructor
      · intro hg'
        rcases reach0 g' hg' with habs | ⟨_, hr⟩
        · exact absurd habs (List.not_mem_nil g')
        · rw [hbf] at hr; exact hr
      · intro hr
        induction hr with
        | refl => rw [← hbf]; exact hin
        | tail _ hadj ihr =>
          obtain ⟨ℓ0, hℓ0, hfb, hfc, _, hsc⟩ := hadj
          have hcl := clos0 _ ihr (by simp [emptyGrid])
          have := hcl ℓ0 hℓ0 hfb (by rw [hfc]; exact hsc)
          rw [hfc] at this
          exact this

/-- Postcondition of the discovery loop: the island list stays a family of
pairwise-disjoint full components, it only grows, and every selected face of
the processed list ends up in some island. -/
theorem discoverFaces_post (m : Mesh) (p : Params) (fuel : Nat) (hwf : m.wf) :
    ∀ (fs : List Nat) (acc out : List Island),
      (∀ f ∈ fs, f < m.faceCount) → GoodAcc m acc → DisjAcc acc →
      discoverFaces m p fuel fs acc = some (.ok out) →
      GoodAcc m out ∧ DisjAcc out ∧ (∀ I ∈ acc, I ∈ out) ∧
      (∀ f ∈ fs, m.select f = true → ∃ I, I ∈ out ∧ f ∈ I.faces) := by
  intro fs
  induction fs with
  | nil =>
    intro acc out hb hg hd h
    simp only [discoverFaces, Option.some.injEq, Except.ok.injEq] at h
    subst h
    exact ⟨hg, hd, fun I hI => hI, by simp⟩
  | cons f rest ih =>
    intro acc out hb hg hd h
    simp only [discoverFaces] at h
    by_cases hguard : (m.select f && (find_island acc f).isNone) = true
    · rw [if_pos hguard] at h
      rw [Bool.and_eq_true] at hguard
      cases hii : island_init m p fuel f with
      | none => rw [hii] at h; exact absurd h (by simp)
      | some e =>
        cases e with
        | error e => rw [hii] at h; exact absurd h (by simp)
        | ok isl =>
          rw [hii] at h
          have hnotin : ∀ I ∈ acc, f ∉ I.faces := by
            intro I hI
            have := List.find?_eq_none.mp (Option.isNone_iff_eq_none.mp hguard.2) I hI
            simpa using this
          have hcomp := island_init_component m p fuel f isl hwf (hb f (by simp)) hii
          have hg' : GoodAcc m (acc ++ [isl]) := by
            intro I hI
            rcases List.mem_append.mp hI with h1 | h1
            · exact hg I h1
            · rw [List.mem_singleton.mp h1]
              exact ⟨f, hb f (by simp), hcomp.1, hcomp.2⟩
          have hd' : DisjAcc (acc ++ [isl]) := by
            rw [DisjAcc, List.pairwise_append]
            refine ⟨hd, List.pairwise_singleton _ _, ?_⟩
            intro I hI J hJ
            rw [List.mem_singleton.mp hJ]
            intro g hgI hgJ
            obtain ⟨s0, _, _, hiff⟩ := hg I hI
            have h1 : Reach m s0 g := (hiff g).mp hgI
            have h2 : Reach m f g := (hcomp.2 g).mp hgJ
            have h3 : Reach m s0 f := h1.trans (Reach_symm m hwf f g h2)
            exact hnotin I hI ((hiff f).mpr h3)
          have IH := ih (acc ++ [isl]) out (fun f' hf' => hb f' (by simp [hf'])) hg' hd' h
          obtain ⟨hgo, hdo, hmono, hcov⟩ := IH
          refine ⟨hgo, hdo, fun I hI => hmono I (by simp [hI]), ?_⟩
          intro f' hf' hsf'
          rcases List.mem_cons.mp hf' with h1 | hmem
          · subst h1
            exact ⟨isl, hmono isl (by simp), (hcomp.2 f').mpr Relation.ReflTransGen.refl⟩
          · exact hcov f' hmem hsf'
    · rw [if_neg hguard] at h
      have IH := ih acc out (fun f' hf' => hb f' (by simp [hf'])) hg hd h
      obtain ⟨hgo, hdo, hmono, hcov⟩ := IH
      refine ⟨hgo, hdo, hmono, ?_⟩
      intro f' hf' hsf'
      rcases List.mem_cons.mp hf' with h1 | hmem
      · subst h1
        obtain ⟨I, hI⟩ : ∃ I, find_island acc f' = some I := by
          cases hfi : find_island acc f' with
          | none => exact absurd (by simp [hsf', hfi]) hguard
          | some I => exact ⟨I, rfl⟩
        have hIin : I ∈ acc := List.mem_of_find?_eq_some hI
        have hIf : f' ∈ I.faces := by simpa using List.find?_some hI
        exact ⟨I, hmono I hIin, hIf⟩
      · exact hcov f' hmem hsf'

/-- C2: after the discovery loop of `main` has processed every face, the
islands partition the selected faces — every selected face of the mesh is in
some island's face set, and no face is in the face sets of two distinct
islands. -/
theorem island_partition (m : Mesh) (p : Params) (fuel : Nat)
    (islands : List Island) (hwf : m.wf)
    (h : main_discover m p fuel = some (.ok islands)) :
    (∀ f, f < m.faceCount → m.select f = true →
      ∃ I, I ∈ islands ∧ f ∈ I.faces) ∧
    List.Pairwise (fun I J => ∀ g, g ∈ I.faces → g ∉ J.faces) islands := by
  have hpost := discoverFaces_post m p fuel hwf (List.range m.faceCount) [] islands
    (fun f hf => List.mem_range.mp hf)
    (fun I hI => absurd hI (List.not_mem_nil I))
    List.Pairwise.nil h
  obtain ⟨_, hdisj, _, hcov⟩ := hpost
  exact ⟨fun f hf hs => hcov f (List.mem_range.mpr hf) hs, hdisj⟩

/-- Witness for C2 on the single-quad mesh: discovery completes with one
island, and the partition property holds for it. -/
theorem island_partition_witness :
    Mesh.wf mesh1 ∧ main_discover mesh1 p0 64 = some (.ok islands1) ∧
    ((∀ f, f < mesh1.faceCount → mesh1.select f = true →
        ∃ I, I ∈ islands1 ∧ f ∈ I.faces) ∧
     List.Pairwise (fun I J => ∀ g, g ∈ I.faces → g ∉ J.faces) islands1) :=
  ⟨by decide, by decide, island_partition mesh1 p0 64 islands1 (by decide) (by decide)⟩

/-! ### Error behaviour (C7) -/

/-- On a well-formed mesh the traversal never raises from a selected entry
face: the guard on each edge only recurses into selected twin faces. -/
theorem runStep_no_error (m : Mesh) (hwf : m.wf) :
    ∀ (fuel : Nat) (c : TCall),
      (match c with
       | .item _ ℓ _ _ => ℓ < m.loops → m.select (m.face ℓ) = true →
          runStep m fuel c ≠ some (.error ())
       | .edges _ ℓ _ _ _ => ℓ < m.loops →
          runStep m fuel c ≠ some (.error ())) := by
  intro fuel
  induction fuel with
  | zero =>
    intro c
    cases c with
    | item s ℓ x y => intro _ _; simp [runStep]
    | edges s ℓ x y es => intro _; simp [runStep]
  | succ fuel ih =>
    intro c
    cases c with
    | item s ℓ x y =>
      intro hℓ hsel
      simp only [runStep]
      rw [if_pos hsel]
      exact ih (.edges _ ℓ x y [0, 1, 2, 3]) hℓ
    | edges s ℓ x y es =>
      intro hℓ
      cases es with
      | nil => simp [runStep]
      | cons i rest =>
        simp only [runStep]
        by_cases hg : (m.select (m.face (m.radial ℓ)) &&
            !(s.faces.contains (m.face (m.radial ℓ)))) = true
        · rw [if_pos hg]
          have hselTwin : m.select (m.face (m.radial ℓ)) = true := by
            have hand := hg
            rw [Bool.and_eq_true] at hand
            exact hand.1
          have htw : m.radial ℓ < m.loops := (hwf.1 ℓ hℓ).2.1
          have hcl := increment_loop_wf m hwf (twin_adjust_loop.getD i 0)
            (m.radial ℓ) htw
          cases hn : runStep m fuel (.item s
              (increment_loop m (m.radial ℓ) (twin_adjust_loop.getD i 0))
              (x + twin_delta_x.getD i 0) (y + twin_delta_y.getD i 0)) with
          | none => simp
          | some e =>
            cases e with
            | error e =>
              cases e
              exact absurd hn (ih (.item s _ _ _) hcl.1 (by rw [hcl.2]; exact hselTwin))
            | ok s' =>
              simp only
              exact ih (.edges s' (m.next ℓ) x y rest) (hwf.1 ℓ hℓ).1
        · rw [if_neg hg]
          simp only
          exact ih (.edges s (m.next ℓ) x y rest) (hwf.1 ℓ hℓ).1

/-- C7: on a well-formed mesh, `add_item` raises exactly when it is asked to
add a loop whose owning face is not selected (and it had fuel to look); and
because `main` discovers all islands before applying any of them, an
invocation whose discovery phase raises performs no UV writes at all. -/
theorem add_item_error_iff_no_writes (m : Mesh) (hwf : m.wf) (fuel : Nat)
    (s : GridState) (ℓ : Nat) (x y : Int) (hℓ : ℓ < m.loops) :
    (add_item m fuel s ℓ x y = some (.error ()) ↔
      1 ≤ fuel ∧ m.select (m.face ℓ) = false) ∧
    (∀ (p : Params) (fuel2 : Nat) (rng : Nat → Nat × Nat)
        (st : Except Unit Unit) (ws : List (Nat × (ℚ × ℚ))),
      main_run m p fuel2 rng = some (st, ws) → st = .error () → ws = []) := by
  constructor
  · constructor
    · intro he
      refine ⟨?_, ?_⟩
      · cases fuel with
        | zero => exact absurd he (by simp [add_item, runStep])
        | succ fuel => omega
      · cases hb : m.select (m.face ℓ) with
        | false => rfl
        | true =>
          exact absurd he (runStep_no_error m hwf fuel (.item s ℓ x y) hℓ hb)
    · rintro ⟨hf, hsel⟩
      cases fuel with
      | zero => omega
      | succ fuel => simp [add_item, runStep, hsel]
  · intro p fuel2 rng st ws hrun hst
    unfold main_run at hrun
    cases hd : main_discover m p fuel2 with
    | none => rw [hd] at hrun; exact absurd hrun (by simp)
    | some e =>
      cases e with
      | error e =>
        rw [hd] at hrun
        simp only [Option.some.injEq, Prod.mk.injEq] at hrun
        exact hrun.2.symm
      | ok islands =>
        rw [hd] at hrun
        simp only [Option.some.injEq, Prod.mk.injEq] at hrun
        rw [hst] at hrun
        exact absurd hrun.1.symm (by simp)

/-- Witness for C7: on the unselected quad, a traversal entered at loop 0
raises the precondition error. -/
theorem add_item_error_iff_no_writes_witness :
    Mesh.wf mesh2 ∧ (0 : Nat) < mesh2.loops ∧
    add_item mesh2 5 emptyGrid 0 0 0 = some (.error ()) :=
  ⟨by decide, by decide,
    (add_item_error_iff_no_writes mesh2 (by decide) 5 emptyGrid 0 0 0
      (by decide)).1.mpr ⟨by omega, by decide⟩⟩

/-! ### Rotation transposes a square island (C8) -/

theorem getSlot_set_borders (rows : List (List (Option Cell))) (y x : Nat)
    (hy : y < rows.length) (hx : x < ((rows.get? y).getD []).length) :
    getSlot (set_borders rows) y x =
      match getSlot rows y x with
      | none => none
      | some c => some { c with is_end := [
          decide (y = 0) || (getSlot rows (y - 1) x).isNone,
          decide (x = ((rows.get? y).getD []).length - 1) ||
            (getSlot rows y (x + 1)).isNone,
          decide (y = rows.length - 1) || (getSlot rows (y + 1) x).isNone,
          decide (x = 0) || (getSlot rows y (x - 1)).isNone] } := by
  show ((((set_borders rows).get? y).getD []).get? x).getD none = _
  unfold set_borders
  rw [List.get?_map, List.get?_range hy]
  simp only [Option.map_some', Option.getD_some]
  rw [List.get?_map, List.get?_range hx]
  simp only [Option.map_some', Option.getD_some]

/-- On a fully occupied `n × n` grid, the border pass sets exactly the
array-boundary flags. -/
theorem set_borders_full_slot (rows : List (List (Option Cell))) (n : Nat)
    (hlen : rows.length = n) (hrows : ∀ r ∈ rows, r.length = n)
    (hfull : ∀ y, y < n → ∀ x, x < n → (getSlot rows y x).isSome = true)
    (y x : Nat) (hy : y < n) (hx : x < n) :
    ∃ c, getSlot rows y x = some c ∧
      getSlot (set_borders rows) y x = some { c with is_end :=
        [decide (y = 0), decide (x = n - 1), decide (y = n - 1), decide (x = 0)] } := by
  obtain ⟨c, hc⟩ := Option.isSome_iff_exists.mp (hfull y hy x hx)
  have hylen : y < rows.length := by omega
  have hrowlen : ((rows.get? y).getD []).length = n := by
    have hget : rows.get? y = some (rows.get ⟨y, hylen⟩) := List.get?_eq_get hylen
    rw [hget]
    exact hrows _ (List.get?_mem hget)
  refine ⟨c, hc, ?_⟩
  rw [getSlot_set_borders rows y x hylen (by rw [hrowlen]; exact hx), hc]
  have hb0 : (decide (y = 0) || (getSlot rows (y - 1) x).isNone) = decide (y = 0) := by
    by_cases h0 : y = 0
    · simp [h0]
    · obtain ⟨c', hc'⟩ := Option.isSome_iff_exists.mp
        (hfull (y - 1) (by omega) x hx)
      simp [h0, hc']
  have hb1 : (decide (x = ((rows.get? y).getD []).length - 1) ||
      (getSlot rows y (x + 1)).isNone) = decide (x = n - 1) := by
    rw [hrowlen]
    by_cases h0 : x = n - 1
    · simp [h0]
    · obtain ⟨c', hc'⟩ := Option.isSome_iff_exists.mp
        (hfull y hy (x + 1) (by omega))
      simp [h0, hc']
  have hb2 : (decide (y = rows.length - 1) || (getSlot rows (y + 1) x).isNone) =
      decide (y = n - 1) := by
    rw [hlen]
    by_cases h0 : y = n - 1
    · simp [h0]
    · obtain ⟨c', hc'⟩ := Option.isSome_iff_exists.mp
        (hfull (y + 1) (by omega) x hx)
      simp [h0, hc']
  have hb3 : (decide (x = 0) || (getSlot rows y (x - 1)).isNone) = decide (x = 0) := by
    by_cases h0 : x = 0
    · simp [h0]
    · obtain ⟨c', hc'⟩ := Option.isSome_iff_exists.mp
        (hfull y hy (x - 1) (by omega))
      simp [h0, hc']
  rw [hb0, hb1, hb2, hb3]

/-- C8: over a fully occupied square island, the `rotate=True` run assigns to
cell `(x, y)` exactly the texture span the `rotate=False` run assigns to cell
`(y, x)` — the layout is the transposed relabeling — and the set of atlas
spans used by the two runs is identical. -/
theorem rotate_transposes_square (p : Params) (n : Nat)
    (rows : List (List (Option Cell))) (x_org y_org : Int)
    (hlen : rows.length = n) (hrows : ∀ r ∈ rows, r.length = n)
    (hfull : ∀ y, y < n → ∀ x, x < n → (getSlot rows y x).isSome = true) :
    (∀ x, x < n → ∀ y, y < n →
      tex_span_at { p with rotate := true } (set_borders rows) x_org y_org x y =
      tex_span_at { p with rotate := false } (set_borders rows) x_org y_org y x) ∧
    ((Finset.range n ×ˢ Finset.range n).image (fun q =>
        tex_span_at { p with rotate := true } (set_borders rows) x_org y_org q.1 q.2) =
     (Finset.range n ×ˢ Finset.range n).image (fun q =>
        tex_span_at { p with rotate := false } (set_borders rows) x_org y_org q.1 q.2)) := by
  have hpt : ∀ x, x < n → ∀ y, y < n →
      tex_span_at { p with rotate := true } (set_borders rows) x_org y_org x y =
      tex_span_at { p with rotate := false } (set_borders rows) x_org y_org y x := by
    intro x hx y hy
    obtain ⟨c, _, hcB⟩ := set_borders_full_slot rows n hlen hrows hfull y x hy hx
    obtain ⟨c', _, hcB'⟩ := set_borders_full_slot rows n hlen hrows hfull x y hx hy
    unfold tex_span_at
    rw [hcB, hcB']
    simp only [List.getD]
    rfl
  refine ⟨hpt, ?_⟩
  ext a
  simp only [Finset.mem_image, Finset.mem_product, Finset.mem_range]
  constructor
  · rintro ⟨q, ⟨hq1, hq2⟩, rfl⟩
    exact ⟨(q.2, q.1), ⟨hq2, hq1⟩, (hpt q.1 hq1 q.2 hq2).symm⟩
  · rintro ⟨q, ⟨hq1, hq2⟩, rfl⟩
    exact ⟨(q.2, q.1), ⟨hq2, hq1⟩, hpt q.2 hq2 q.1 hq1⟩

/-- Witness for C8 on the full `2 × 2` block. -/
theorem rotate_transposes_square_witness :
    rows2.length = 2 ∧ (∀ r ∈ rows2, r.length = 2) ∧
    (∀ y, y < 2 → ∀ x, x < 2 → (getSlot rows2 y x).isSome = true) ∧
    ((∀ x, x < 2 → ∀ y, y < 2 →
      tex_span_at { p0 with rotate := true } (set_borders rows2) 0 0 x y =
      tex_span_at { p0 with rotate := false } (set_borders rows2) 0 0 y x) ∧
    ((Finset.range 2 ×ˢ Finset.range 2).image (fun q =>
        tex_span_at { p0 with rotate := true } (set_borders rows2) 0 0 q.1 q.2) =
     (Finset.range 2 ×ˢ Finset.range 2).image (fun q =>
        tex_span_at { p0 with rotate := false } (set_borders rows2) 0 0 q.1 q.2))) :=
  ⟨by decide, by decide, by decide,
    rotate_transposes_square p0 2 rows2 0 0 (by decide) (by decide) (by decide)⟩

/-! ### Per-island random atlas origin (C9) -/

theorem randrange_even_bounds (stop : Int) (r : Nat) (h : 0 < stop) :
    Even (randrange_even stop r) ∧ 0 ≤ randrange_even stop r ∧
      randrange_even stop r < stop := by
  unfold randrange_even
  have h2 : 0 < (stop + 1) / 2 := by omega
  have hmod1 : 0 ≤ (r : Int) % ((stop + 1) / 2) :=
    Int.emod_nonneg _ (ne_of_gt h2)
  have hmod2 : (r : Int) % ((stop + 1) / 2) < (stop + 1) / 2 :=
    Int.emod_lt_of_pos _ h2
  refine ⟨⟨(r : Int) % ((stop + 1) / 2), by ring⟩, by omega, by omega⟩

/-- C9: the atlas origin of `Island.apply` is drawn once per island — every
write of the island is computed from the single `island_origins` pair — and
when `random` is enabled each component is an even integer of
`[0, texture_size // cell_size)` on its axis (given the Python-side
precondition that the range is nonempty), while with `random` disabled both
components are 0. -/
theorem island_origins_spec (p : Params) (r1 r2 : Nat) :
    (p.random = false → island_origins p r1 r2 = (0, 0)) ∧
    (p.random = true →
      0 < p.texture_size.1 / p.cell_size.1 →
      0 < p.texture_size.2 / p.cell_size.2 →
      (Even (island_origins p r1 r2).1 ∧ 0 ≤ (island_origins p r1 r2).1 ∧
        (island_origins p r1 r2).1 < p.texture_size.1 / p.cell_size.1) ∧
      (Even (island_origins p r1 r2).2 ∧ 0 ≤ (island_origins p r1 r2).2 ∧
        (island_origins p r1 r2).2 < p.texture_size.2 / p.cell_size.2)) ∧
    (∀ (m : Mesh) (isl : Island),
      apply_island m p isl r1 r2 = apply_island_at m p isl (island_origins p r1 r2)) := by
  refine ⟨?_, ?_, fun m isl => rfl⟩
  · intro h
    simp [island_origins, h]
  · intro h h1 h2
    constructor
    · simpa [island_origins, h] using randrange_even_bounds _ r1 h1
    · simpa [island_origins, h] using randrange_even_bounds _ r2 h2

/-- Witness for C9: with the default sizes `128 / 8 = 16`, oracle draws give
an even origin below 16 when `random` is on, and `(0, 0)` when it is off. -/
theorem island_origins_spec_witness :
    island_origins p0 3 4 = (0, 0) ∧
    (Even (island_origins pRand 3 4).1 ∧ 0 ≤ (island_origins pRand 3 4).1 ∧
      (island_origins pRand 3 4).1 < pRand.texture_size.1 / pRand.cell_size.1) ∧
    apply_island mesh1 pRand (islands1.getD 0 ⟨[], 0, 0, []⟩) 3 4 =
      apply_island_at mesh1 pRand (islands1.getD 0 ⟨[], 0, 0, []⟩)
        (island_origins pRand 3 4) :=
  ⟨(island_origins_spec p0 3 4).1 rfl,
   ((island_origins_spec pRand 3 4).2.1 rfl (by decide) (by decide)).1,
   (island_origins_spec pRand 3 4).2.2 mesh1 (islands1.getD 0 ⟨[], 0, 0, []⟩)⟩
